import Mathlib

/-!
A verification development for the shoe-inventory program in
`src/inventory.py`.  The program keeps a global list of shoe records
(country, code, product, cost, quantity), loads it from the flat
comma-delimited text file `inventory.txt`, and offers append, restock,
search and min/max-by-quantity operations over it.

Shallow embedding conventions:

* Python strings are modelled as `Str := List Char`; the helper `str`
  turns a Lean string literal into a `Str`.
* The text file is modelled as `Option (List Str)`: `none` means the file
  does not exist (opening it raises `FileNotFoundError`), `some lines`
  gives its list of lines with the trailing newlines removed.
* `str.strip()` is modelled by `strip` over the six ASCII whitespace
  characters Python strips (wider Unicode whitespace is not modelled; no
  claim depends on it).
* `int(s)` is modelled by `pyInt` — optional surrounding whitespace, an
  optional single sign, then one or more ASCII decimal digits (Unicode
  digits and grouping underscores are not modelled; no claim depends on
  them).  `s.isdigit()` is modelled by `pyIsDigit` (ASCII digits).
* `str.lower()` is modelled by `pyLower` using ASCII lowercasing.
* Functions that can raise an uncaught Python exception return
  `Except PyExn`.  Console output (`print` diagnostics) is not modelled;
  only the data effects of each operation are.
-/

/-- Python strings, modelled as lists of characters. -/
abbrev Str := List Char

/-- Converts a Lean string literal to the `List Char` view used throughout. -/
def str (s : String) : Str := s.data

/-- The six ASCII characters removed by the no-argument `str.strip()`. -/
def isPySpace (c : Char) : Bool :=
  c = ' ' || c = '\t' || c = '\n' || c = '\r' || c = '\x0b' || c = '\x0c'

/-- Model of `s.strip()`: drop leading and trailing whitespace. -/
def strip (s : Str) : Str :=
  ((s.dropWhile isPySpace).reverse.dropWhile isPySpace).reverse

/-- Model of `s.split(",")`: split at every comma, keeping empty parts, so
the result always has one more part than the number of commas. -/
def splitComma : Str → List Str
  | [] => [[]]
  | c :: rest =>
    if c = ',' then [] :: splitComma rest
    else
      match splitComma rest with
      | [] => [[c]]
      | p :: ps => (c :: p) :: ps

/-- ASCII decimal digit test, written as an explicit ten-way disjunction so
that facts about digits reduce by case analysis. -/
def isDig (c : Char) : Bool :=
  c = '0' || c = '1' || c = '2' || c = '3' || c = '4' ||
  c = '5' || c = '6' || c = '7' || c = '8' || c = '9'

/-- Numeric value of an ASCII digit character. -/
def digitVal : Char → Nat
  | '0' => 0 | '1' => 1 | '2' => 2 | '3' => 3 | '4' => 4
  | '5' => 5 | '6' => 6 | '7' => 7 | '8' => 8 | '9' => 9
  | _ => 0

/-- The ASCII digit character for a value below ten. -/
def digitChar : Nat → Char
  | 0 => '0' | 1 => '1' | 2 => '2' | 3 => '3' | 4 => '4'
  | 5 => '5' | 6 => '6' | 7 => '7' | 8 => '8' | 9 => '9'
  | _ => '*'

/-- Value of a big-endian ASCII digit string. -/
def digitsToNat (s : Str) : Nat :=
  s.foldl (fun a c => a * 10 + digitVal c) 0

/-- Model of `s.isdigit()` (restricted to ASCII): nonempty and all digits. -/
def pyIsDigit (s : Str) : Bool :=
  !s.isEmpty && s.all isDig

/-- Digit-string stage of `int(s)`: succeeds on a nonempty all-digit string. -/
def pyIntCore (s : Str) : Option Int :=
  if !s.isEmpty && s.all isDig then some (digitsToNat s) else none

/-- Model of Python `int(s)` for the strings this program feeds it:
surrounding whitespace is stripped, then an optional single sign precedes
one or more decimal digits; anything else raises `ValueError` (`none`). -/
def pyInt (s : Str) : Option Int :=
  match strip s with
  | [] => none
  | c :: rest =>
    if c = '-' then (pyIntCore rest).map (fun n => -n)
    else if c = '+' then pyIntCore rest
    else pyIntCore (c :: rest)

/-- Decimal rendering of a natural number, big-endian, via explicit fuel so
that it reduces by kernel computation (the fuel `n + 1` always suffices
because the argument shrinks by a factor of ten each step). -/
def natToStrAux : Nat → Nat → Str
  | 0, _ => []
  | fuel + 1, n =>
    if n < 10 then [digitChar n]
    else natToStrAux fuel (n / 10) ++ [digitChar (n % 10)]

/-- Model of `str(n)` for a natural number. -/
def natToStr (n : Nat) : Str := natToStrAux (n + 1) n

/-- Model of `str(i)` for a Python integer: a minus sign before the digits
when negative. -/
def intToStr : Int → Str
  | .ofNat n => natToStr n
  | .negSucc m => '-' :: natToStr (m + 1)

/-- Model of `s.lower()` (restricted to ASCII case folding). -/
def pyLower (s : Str) : Str := s.map Char.toLower

/-- A shoe record, mirroring class `Shoe` in `inventory.py`: `cost` and
`quantity` are whatever `int()` produced, so they are modelled as `Int`. -/
structure Shoe where
  country : Str
  code : Str
  product : Str
  cost : Int
  quantity : Int
deriving Repr, DecidableEq

/-- The Python exceptions that can escape the modelled operations. -/
inductive PyExn where
  | stopIteration
  | valueError
deriving Repr, DecidableEq

/-- One iteration of the loop body of `read_shoes_data` on a single line:
strip, split on commas, require exactly five parts, then convert the last
two with `int` (a `ValueError` in either conversion rejects the line). -/
def parseLine (line : Str) : Option Shoe :=
  match splitComma (strip line) with
  | [country, code, product, cost, quantity] =>
    match pyInt cost with
    | none => none
    | some c =>
      match pyInt quantity with
      | none => none
      | some q => some ⟨country, code, product, c, q⟩
  | _ => none

/-- The `for line in f` loop of `read_shoes_data`: each well-formed line is
appended to the accumulated `shoe_list`; a malformed line is reported and
skipped (`continue`). -/
def readLoop (shoe_list : List Shoe) : List Str → List Shoe
  | [] => shoe_list
  | line :: rest =>
    match parseLine line with
    | none => readLoop shoe_list rest
    | some s => readLoop (shoe_list ++ [s]) rest

/-- Model of `read_shoes_data()`.  The argument `file` is the current state
of `inventory.txt` (`none` when absent) and `shoe_list` the in-memory list
the function starts from (the Python function appends to the global list).
A missing file raises `FileNotFoundError`, which the function catches,
leaving the list as it was; `next(f)` on a zero-line file raises an
uncaught `StopIteration`; otherwise the header line is skipped and the
remaining lines are folded by `readLoop`. -/
def read_shoes_data (file : Option (List Str)) (shoe_list : List Shoe) :
    Except PyExn (List Shoe) :=
  match file with
  | none => .ok shoe_list
  | some [] => .error .stopIteration
  | some (_header :: data) => .ok (readLoop shoe_list data)

/-- The literal header line written by the program. -/
def headerLine : Str := str "Country,Code,Product,Cost,Quantity"

/-- The data line `capture_shoes` and `re_stock` write for a record:
`f"{country},{code},{product},{cost},{quantity}"` (the trailing newline is
implicit in the one-line-per-list-entry file model). -/
def shoeLine (s : Shoe) : Str :=
  s.country ++ ',' :: (s.code ++ ',' ::
    (s.product ++ ',' :: (intToStr s.cost ++ ',' :: intToStr s.quantity)))

/-- The file-append step of `capture_shoes`: if `inventory.txt` exists the
line is appended, otherwise the file is created with the header line first. -/
def writeAppend (file : Option (List Str)) (line : Str) : List Str :=
  match file with
  | some lines => lines ++ [line]
  | none => [headerLine, line]

/-- The record `capture_shoes` gathers from the user before writing: every
prompt result is `.strip()`ped, and cost and quantity are `int(...)` of
inputs already validated by `.isdigit()` (so `getD 0` is never the fallback
under that validation). -/
def captureShoe (country code product costS qtyS : Str) : Shoe :=
  ⟨strip country, strip code, strip product,
    (pyInt (strip costS)).getD 0, (pyInt (strip qtyS)).getD 0⟩

/-- Model of `capture_shoes()` after its input-validation loops have
accepted the five raw input strings: the new data line is appended to the
file (with a header first when the file is absent), then `shoe_list` is
cleared and reloaded from the file.  Returns the new file contents and the
result of the reload. -/
def capture_shoes (file : Option (List Str))
    (country code product costS qtyS : Str) :
    List Str × Except PyExn (List Shoe) :=
  let line := shoeLine (captureShoe country code product costS qtyS)
  let newFile := writeAppend file line
  (newFile, read_shoes_data (some newFile) [])

/-- Model of `min(shoe_list, key=lambda s: s.quantity)`: scan left to
right, replacing the running best only on a strictly smaller key, so the
first record attaining the minimum is kept; `min` of an empty list raises
`ValueError` (`none`). -/
def minByQty : List Shoe → Option Shoe
  | [] => none
  | s :: rest =>
    some (rest.foldl (fun best x => if x.quantity < best.quantity then x else best) s)

/-- Model of `max(shoe_list, key=lambda s: s.quantity)`: the running best
is replaced only on a strictly larger key, keeping the first maximum. -/
def maxByQty : List Shoe → Option Shoe
  | [] => none
  | s :: rest =>
    some (rest.foldl (fun best x => if best.quantity < x.quantity then x else best) s)

/-- In-place update step of `re_stock`: Python mutates the object returned
by `min`, which (by the scan order of `min`) is the first list element
whose quantity equals the minimum `m`; so the model bumps the quantity of
the first record whose quantity is `m` and keeps everything else. -/
def bumpFirstMin (m delta : Int) : List Shoe → List Shoe
  | [] => []
  | s :: rest =>
    if s.quantity = m then { s with quantity := s.quantity + delta } :: rest
    else s :: bumpFirstMin m delta rest

/-- Model of `re_stock()` after its input loop accepted a restock amount:
find the lowest-quantity shoe, add `delta` to its quantity, then rewrite
`inventory.txt` from scratch as the header line followed by one line per
record in list order.  Returns the updated list and the rewritten file. -/
def re_stock (shoe_list : List Shoe) (delta : Int) :
    Except PyExn (List Shoe × List Str) :=
  match minByQty shoe_list with
  | none => .error .valueError
  | some target =>
    let newList := bumpFirstMin target.quantity delta shoe_list
    .ok (newList, headerLine :: newList.map shoeLine)

/-- The linear scan of `search_shoe`: compare the prepared search code to
each record code, lowercased, returning at the first hit. -/
def searchLoop (sc : Str) : List Shoe → Option Shoe
  | [] => none
  | item :: rest =>
    if sc = pyLower item.code then some item else searchLoop sc rest

/-- Model of `search_shoe()` given the raw code string typed by the user:
the `for item in shoe_list` loop above returns the first record whose
lowercased code equals the lowercased, stripped input; falling off the loop
prints the not-found message and returns `None`. -/
def search_shoe (searchRaw : Str) (shoe_list : List Shoe) : Option Shoe :=
  searchLoop (pyLower (strip searchRaw)) shoe_list

/-- Model of `value_per_item()`: the `(code, cost * quantity)` pairs it
prints, in list order. -/
def value_per_item (shoe_list : List Shoe) : List (Str × Int) :=
  shoe_list.map (fun item => (item.code, item.quantity * item.cost))

/-- The collection recoverable from a given file state: empty when the file
is absent (load reports and keeps the empty list) and the parse of the data
lines otherwise.  A zero-line file is excluded by callers since load
crashes on it. -/
def fileShoes : Option (List Str) → List Shoe
  | none => []
  | some [] => []
  | some (_header :: data) => data.filterMap parseLine

/-- A string with no delimiter occurrence, the condition under which a
field survives the comma split intact. -/
def noComma (s : Str) : Bool := s.all (fun c => !(c = ','))

/-- A string that does not begin with a whitespace character. -/
def noLeadSpace : Str → Bool
  | [] => true
  | c :: _ => !isPySpace c

/-- Field shape of every record the program ever holds in memory: the
three string fields are comma-free and the country does not start with
whitespace.  Every record produced by parsing a line has this shape
(`parseLine_good`), and it is exactly what makes a record survive a
serialize/parse round trip (`parseLine_shoeLine`). -/
def GoodShoe (s : Shoe) : Prop :=
  noComma s.country = true ∧ noComma s.code = true ∧ noComma s.product = true ∧
    noLeadSpace s.country = true

instance (s : Shoe) : Decidable (GoodShoe s) := by
  unfold GoodShoe
  infer_instance

/-- The left fold performed by `min(shoe_list, key=...)` once the first
element has been taken as the initial best. -/
def minFold (s : Shoe) (rest : List Shoe) : Shoe :=
  rest.foldl (fun best x => if x.quantity < best.quantity then x else best) s

/-- The left fold performed by `max(shoe_list, key=...)` once the first
element has been taken as the initial best. -/
def maxFold (s : Shoe) (rest : List Shoe) : Shoe :=
  rest.foldl (fun best x => if best.quantity < x.quantity then x else best) s

/-- A sample record used to evaluate the theorems on concrete data. -/
def shoeA : Shoe := ⟨str "UK", str "SC001", str "Boot", 50, 3⟩

/-- A second sample record, with the smallest quantity of the three. -/
def shoeB : Shoe := ⟨str "UK", str "SC002", str "Shoe", 30, 1⟩

/-- A third sample record, tying with `shoeA` on quantity. -/
def shoeC : Shoe := ⟨str "FR", str "SC003", str "Heel", 10, 3⟩

/-- Digit characters are not whitespace, not the delimiter and not signs. -/
theorem isDig_facts (c : Char) (h : isDig c = true) :
    isPySpace c = false ∧ (c = ',') = False ∧ (c = '-') = False ∧ (c = '+') = False := by
  simp only [isDig, Bool.or_eq_true, decide_eq_true_eq] at h
  rcases h with ((((((((h | h) | h) | h) | h) | h) | h) | h) | h) | h <;> subst h <;>
    exact ⟨by decide, by decide, by decide, by decide⟩

/-- The digit character of a value below ten is a digit character. -/
theorem digitChar_isDig (n : Nat) (h : n < 10) : isDig (digitChar n) = true := by
  interval_cases n <;> decide

/-- Reading back the digit character of a value below ten gives the value. -/
theorem digitVal_digitChar (n : Nat) (h : n < 10) : digitVal (digitChar n) = n := by
  interval_cases n <;> decide

/-- Appending one digit multiplies the accumulated value by ten. -/
theorem digitsToNat_append_digit (s : Str) (c : Char) :
    digitsToNat (s ++ [c]) = 10 * digitsToNat s + digitVal c := by
  simp [digitsToNat, List.foldl_append, Nat.mul_comm]

/-- With fuel above the argument, `natToStrAux` produces a nonempty digit
string that reads back to the argument. -/
theorem natToStrAux_spec (fuel : Nat) :
    ∀ n, n < fuel →
      digitsToNat (natToStrAux fuel n) = n ∧ natToStrAux fuel n ≠ [] ∧
        ∀ c ∈ natToStrAux fuel n, isDig c = true := by
  induction fuel with
  | zero => intro n hn; omega
  | succ fuel ih =>
    intro n hn
    by_cases h10 : n < 10
    · refine ⟨?_, ?_, ?_⟩
      · simp [natToStrAux, h10, digitsToNat, digitVal_digitChar n h10]
      · simp [natToStrAux, h10]
      · simp only [natToStrAux, h10, if_true, List.mem_singleton]
        rintro c rfl; exact digitChar_isDig n h10
    · have hdiv : n / 10 < fuel := by omega
      obtain ⟨h1, h2, h3⟩ := ih (n / 10) hdiv
      have hmod : n % 10 < 10 := Nat.mod_lt n (by omega)
      refine ⟨?_, ?_, ?_⟩
      · simp only [natToStrAux, h10, if_false]
        rw [digitsToNat_append_digit, h1, digitVal_digitChar _ hmod]
        omega
      · simp [natToStrAux, h10]
      · simp only [natToStrAux, h10, if_false, List.mem_append, List.mem_singleton]
        rintro c (hc | rfl)
        · exact h3 c hc
        · exact digitChar_isDig _ hmod

/-- The decimal rendering of a natural number reads back to it. -/
theorem digitsToNat_natToStr (n : Nat) : digitsToNat (natToStr n) = n :=
  (natToStrAux_spec (n + 1) n (Nat.lt_succ_self n)).1

/-- The decimal rendering of a natural number is nonempty. -/
theorem natToStr_ne_nil (n : Nat) : natToStr n ≠ [] :=
  (natToStrAux_spec (n + 1) n (Nat.lt_succ_self n)).2.1

/-- Every character of the decimal rendering of a natural number is a digit. -/
theorem natToStr_digits (n : Nat) : ∀ c ∈ natToStr n, isDig c = true :=
  (natToStrAux_spec (n + 1) n (Nat.lt_succ_self n)).2.2

/-- The head of a list is a member. -/
theorem mem_of_head?_eq {α : Type} {l : List α} {a : α} (h : l.head? = some a) : a ∈ l := by
  cases l <;> simp_all

/-- The last element of a list is a member. -/
theorem mem_of_getLast?_eq {α : Type} {l : List α} {a : α} (h : l.getLast? = some a) : a ∈ l := by
  have := List.head?_reverse l
  have hm : a ∈ l.reverse := mem_of_head?_eq (by rw [this, h])
  simpa using hm

/-- `dropWhile` leaves a list whose head fails the predicate unchanged. -/
theorem dropWhile_eq_self (p : Char → Bool) (s : Str)
    (h : ∀ c, s.head? = some c → p c = false) : s.dropWhile p = s := by
  cases s with
  | nil => rfl
  | cons c cs => simp [List.dropWhile_cons, h c rfl]

/-- Stripping a string with no surrounding whitespace is the identity. -/
theorem strip_eq_self (s : Str)
    (h1 : ∀ c, s.head? = some c → isPySpace c = false)
    (h2 : ∀ c, s.getLast? = some c → isPySpace c = false) : strip s = s := by
  unfold strip
  rw [dropWhile_eq_self _ s h1,
    dropWhile_eq_self _ s.reverse
      (fun c hc => h2 c (by rwa [List.head?_reverse] at hc)),
    List.reverse_reverse]

/-- The head of a `dropWhile` result fails the predicate. -/
theorem dropWhile_head_false (p : Char → Bool) :
    ∀ (s : Str) (c : Char) (r : Str), s.dropWhile p = c :: r → p c = false := by
  intro s
  induction s with
  | nil => intro c r h; simp at h
  | cons a as ih =>
    intro c r h
    by_cases hp : p a
    · rw [List.dropWhile_cons, if_pos hp] at h
      exact ih c r h
    · rw [List.dropWhile_cons, if_neg hp] at h
      cases h
      simpa using hp

/-- A nonempty stripped string starts with a non-whitespace character. -/
theorem strip_head_not_space (s : Str) (c : Char) (r : Str) (h : strip s = c :: r) :
    isPySpace c = false := by
  have hsuf : (s.dropWhile isPySpace).reverse.dropWhile isPySpace <:+
      (s.dropWhile isPySpace).reverse := List.dropWhile_suffix _
  have hpre : strip s <+: s.dropWhile isPySpace := by
    refine List.reverse_suffix.mp ?_
    show (strip s).reverse <:+ (s.dropWhile isPySpace).reverse
    unfold strip
    rw [List.reverse_reverse]
    exact hsuf
  obtain ⟨u, hu⟩ := hpre
  rw [h] at hu
  exact dropWhile_head_false isPySpace s c (r ++ u) (by rw [← hu]; simp)

/-- Stripping an all-digit string is the identity. -/
theorem strip_of_digits (s : Str) (h : ∀ c ∈ s, isDig c = true) : strip s = s :=
  strip_eq_self s
    (fun c hc => (isDig_facts c (h c (mem_of_head?_eq hc))).1)
    (fun c hc => (isDig_facts c (h c (mem_of_getLast?_eq hc))).1)

/-- Splitting always yields at least one part. -/
theorem splitComma_ne_nil (s : Str) : splitComma s ≠ [] := by
  induction s with
  | nil => simp [splitComma]
  | cons c rest ih =>
    by_cases hc : c = ','
    · simp [splitComma, hc]
    · simp only [splitComma, hc, if_false]
      rcases h : splitComma rest with _ | ⟨p, ps⟩ <;> simp

/-- A comma-free string splits into the single part it is. -/
theorem splitComma_noComma (a : Str) (h : noComma a = true) : splitComma a = [a] := by
  induction a with
  | nil => rfl
  | cons c rest ih =>
    simp only [noComma, List.all_cons, Bool.and_eq_true, Bool.not_eq_true',
      decide_eq_false_iff_not] at h
    simp only [splitComma, h.1, if_false]
    rw [ih h.2]

/-- Splitting picks off a comma-free field before the first comma. -/
theorem splitComma_append (a b : Str) (h : noComma a = true) :
    splitComma (a ++ ',' :: b) = a :: splitComma b := by
  induction a with
  | nil => simp [splitComma]
  | cons c rest ih =>
    simp only [noComma, List.all_cons, Bool.and_eq_true, Bool.not_eq_true',
      decide_eq_false_iff_not] at h
    simp only [List.cons_append, splitComma, h.1, if_false, List.append_eq]
    rw [ih h.2]

/-- Every part produced by splitting is comma-free. -/
theorem splitComma_parts (s : Str) : ∀ p ∈ splitComma s, noComma p = true := by
  induction s with
  | nil =>
    intro p hp
    simp only [splitComma, List.mem_singleton] at hp
    subst hp; rfl
  | cons c rest ih =>
    intro p hp
    by_cases hc : c = ','
    · simp only [splitComma, hc, if_true, List.mem_cons] at hp
      rcases hp with rfl | hp
      · rfl
      · exact ih p hp
    · simp only [splitComma, hc, if_false] at hp
      rcases hsp : splitComma rest with _ | ⟨q, qs⟩
      · exact absurd hsp (splitComma_ne_nil rest)
      · rw [hsp] at hp
        simp only [List.mem_cons] at hp
        rcases hp with rfl | hp
        · have hq : noComma q = true := ih q (by rw [hsp]; exact List.mem_cons_self q qs)
          simp only [noComma, List.all_cons, Bool.and_eq_true, Bool.not_eq_true',
            decide_eq_false_iff_not]
          exact ⟨hc, hq⟩
        · exact ih p (by rw [hsp]; exact List.mem_cons_of_mem q hp)

/-- If the first part of a split is nonempty, its head is the head of the
string being split. -/
theorem splitComma_first_head (s : Str) (c : Char) (pr : Str) (ps : List Str)
    (h : splitComma s = (c :: pr) :: ps) : ∃ r, s = c :: r := by
  cases s with
  | nil => simp [splitComma] at h
  | cons a rest =>
    by_cases ha : a = ','
    · simp [splitComma, ha] at h
    · simp only [splitComma, ha, if_false] at h
      rcases hsp : splitComma rest with _ | ⟨q, qs⟩
      · exact absurd hsp (splitComma_ne_nil rest)
      · rw [hsp] at h
        have h2 : (a = c ∧ q = pr) ∧ qs = ps := by simpa using h
        exact ⟨rest, by rw [h2.1.1]⟩

/-- A nonempty all-digit string passes `isdigit`. -/
theorem pyIsDigit_of (s : Str) (hne : s ≠ []) (hall : ∀ c ∈ s, isDig c = true) :
    pyIsDigit s = true := by
  cases s with
  | nil => exact absurd rfl hne
  | cons c r =>
    simp only [pyIsDigit, List.isEmpty_cons, Bool.not_false, Bool.true_and, List.all_eq_true]
    exact hall

/-- A string passing `isdigit` is all digits. -/
theorem all_digits_of_pyIsDigit (s : Str) (h : pyIsDigit s = true) :
    ∀ c ∈ s, isDig c = true := by
  simp only [pyIsDigit, Bool.and_eq_true, List.all_eq_true] at h
  exact h.2

/-- `pyIntCore` succeeds on an `isdigit` string with its digit value. -/
theorem pyIntCore_digits (s : Str) (h : pyIsDigit s = true) :
    pyIntCore s = some (digitsToNat s) := by
  simp only [pyIsDigit] at h
  simp [pyIntCore, h]

/-- `int(s)` on an `isdigit` string yields its digit value. -/
theorem pyInt_of_digits (s : Str) (h : pyIsDigit s = true) :
    pyInt s = some (digitsToNat s) := by
  cases s with
  | nil => simp [pyIsDigit] at h
  | cons c rest =>
    have hall : ∀ x ∈ c :: rest, isDig x = true := all_digits_of_pyIsDigit _ h
    have hstrip : strip (c :: rest) = c :: rest := strip_of_digits _ hall
    have hc : isDig c = true := hall c (List.mem_cons_self _ _)
    obtain ⟨_, _, hminus, hplus⟩ := isDig_facts c hc
    simp only [pyInt, hstrip]
    rw [if_neg (fun hh => hminus ▸ hh), if_neg (fun hh => hplus ▸ hh)]
    exact pyIntCore_digits _ h

/-- `int(str(n))` round-trips for a natural number. -/
theorem pyInt_natToStr (n : Nat) : pyInt (natToStr n) = some n := by
  rw [pyInt_of_digits _ (pyIsDigit_of _ (natToStr_ne_nil n) (natToStr_digits n)),
    digitsToNat_natToStr]

/-- `int(str(i))` round-trips for any Python integer. -/
theorem pyInt_intToStr (i : Int) : pyInt (intToStr i) = some i := by
  cases i with
  | ofNat n => exact pyInt_natToStr n
  | negSucc m =>
    rcases hnE : natToStr (m + 1) with _ | ⟨d, ds⟩
    · exact absurd hnE (natToStr_ne_nil _)
    · have hstrip : strip ('-' :: natToStr (m + 1)) = '-' :: natToStr (m + 1) := by
        apply strip_eq_self
        · intro c hc
          simp only [List.head?_cons, Option.some.injEq] at hc
          subst hc; decide
        · intro c hc
          rw [hnE, List.getLast?_cons_cons] at hc
          have hmem : c ∈ natToStr (m + 1) := by rw [hnE]; exact mem_of_getLast?_eq hc
          exact (isDig_facts c (natToStr_digits _ c hmem)).1
      simp only [intToStr, pyInt, hstrip]
      rw [if_pos trivial,
        pyIntCore_digits _ (pyIsDigit_of _ (natToStr_ne_nil _) (natToStr_digits _)),
        digitsToNat_natToStr]
      simp [Int.negSucc_eq]

/-- Decimal renderings of natural numbers contain no comma. -/
theorem noComma_natToStr (n : Nat) : noComma (natToStr n) = true := by
  simp only [noComma, List.all_eq_true, Bool.not_eq_true', decide_eq_false_iff_not]
  intro c hc hcomma
  exact (isDig_facts c (natToStr_digits n c hc)).2.1 ▸ hcomma

/-- Decimal renderings of Python integers contain no comma. -/
theorem noComma_intToStr (i : Int) : noComma (intToStr i) = true := by
  cases i with
  | ofNat n => exact noComma_natToStr n
  | negSucc m =>
    simp only [intToStr, noComma, List.all_cons, Bool.and_eq_true]
    constructor
    · decide
    · exact noComma_natToStr (m + 1)

/-- Decimal renderings of Python integers are nonempty. -/
theorem intToStr_ne_nil (i : Int) : intToStr i ≠ [] := by
  cases i with
  | ofNat n => exact natToStr_ne_nil n
  | negSucc m => simp [intToStr]

/-- The last character of a rendered Python integer is a digit. -/
theorem intToStr_getLast_digit (i : Int) (c : Char)
    (h : (intToStr i).getLast? = some c) : isDig c = true := by
  cases i with
  | ofNat n => exact natToStr_digits n c (mem_of_getLast?_eq h)
  | negSucc m =>
    rcases hnE : natToStr (m + 1) with _ | ⟨d, ds⟩
    · exact absurd hnE (natToStr_ne_nil _)
    · simp only [intToStr] at h
      rw [hnE, List.getLast?_cons_cons] at h
      have hmem : c ∈ natToStr (m + 1) := by rw [hnE]; exact mem_of_getLast?_eq h
      exact natToStr_digits _ c hmem

/-- Dropping the head of a cons with a nonempty tail keeps the last element. -/
theorem getLast?_cons_ne_nil {α : Type} (c : α) (x : List α) (hx : x ≠ []) :
    (c :: x).getLast? = x.getLast? := by
  have h : c :: x = [c] ++ x := rfl
  rw [h, List.getLast?_append_of_ne_nil _ hx]

/-- The last element of `a ++ ',' :: e` is the last element of nonempty `e`. -/
theorem getLast?_append_comma (a e : Str) (he : e ≠ []) :
    (a ++ ',' :: e).getLast? = e.getLast? := by
  rw [List.getLast?_append_of_ne_nil _ (by simp), getLast?_cons_ne_nil _ _ he]

/-- The last character of a serialized record is a digit (of its quantity). -/
theorem shoeLine_getLast (s : Shoe) (c : Char)
    (h : (shoeLine s).getLast? = some c) : isDig c = true := by
  have h1 : (shoeLine s).getLast? = (intToStr s.quantity).getLast? := by
    rw [shoeLine, getLast?_append_comma _ _ (by simp), getLast?_append_comma _ _ (by simp),
      getLast?_append_comma _ _ (by simp), getLast?_append_comma _ _ (intToStr_ne_nil _)]
  rw [h1] at h
  exact intToStr_getLast_digit _ c h

/-- The first character of a serialized good record is not whitespace. -/
theorem shoeLine_head (s : Shoe) (h : GoodShoe s) (c : Char) (r : Str)
    (hh : shoeLine s = c :: r) : isPySpace c = false := by
  rcases hct : s.country with _ | ⟨a, as⟩
  · rw [shoeLine, hct] at hh
    simp only [List.nil_append, List.cons.injEq] at hh
    rw [← hh.1]
    decide
  · rw [shoeLine, hct] at hh
    simp only [List.cons_append, List.cons.injEq] at hh
    rw [← hh.1]
    have h4 := h.2.2.2
    rw [hct] at h4
    simpa [noLeadSpace] using h4

/-- Stripping a serialized good record is the identity. -/
theorem strip_shoeLine (s : Shoe) (h : GoodShoe s) : strip (shoeLine s) = shoeLine s := by
  apply strip_eq_self
  · intro c hc
    rcases hsl : shoeLine s with _ | ⟨a, r⟩
    · rw [hsl] at hc; simp at hc
    · rw [hsl] at hc
      simp only [List.head?_cons, Option.some.injEq] at hc
      subst hc
      exact shoeLine_head s h a r hsl
  · intro c hc
    exact (isDig_facts c (shoeLine_getLast s c hc)).1

/-- A serialized good record splits back into its five fields. -/
theorem splitComma_shoeLine (s : Shoe) (h : GoodShoe s) :
    splitComma (shoeLine s) =
      [s.country, s.code, s.product, intToStr s.cost, intToStr s.quantity] := by
  rw [shoeLine, splitComma_append _ _ h.1, splitComma_append _ _ h.2.1,
    splitComma_append _ _ h.2.2.1, splitComma_append _ _ (noComma_intToStr _),
    splitComma_noComma _ (noComma_intToStr _)]

/-- Serialize/parse round trip: parsing the line written for a good record
recovers exactly that record. -/
theorem parseLine_shoeLine (s : Shoe) (h : GoodShoe s) : parseLine (shoeLine s) = some s := by
  simp only [parseLine, strip_shoeLine s h, splitComma_shoeLine s h, pyInt_intToStr]

/-- Every record produced by parsing a line is good: its string fields come
from a comma split (so are comma-free) and its country is the first field
of a stripped line (so has no leading whitespace). -/
theorem parseLine_good (line : Str) (r : Shoe) (h : parseLine line = some r) : GoodShoe r := by
  unfold parseLine at h
  rcases hsp : splitComma (strip line) with _ | ⟨p1, t1⟩
  · exact absurd hsp (splitComma_ne_nil _)
  rcases t1 with _ | ⟨p2, t2⟩
  · rw [hsp] at h; simp at h
  rcases t2 with _ | ⟨p3, t3⟩
  · rw [hsp] at h; simp at h
  rcases t3 with _ | ⟨p4, t4⟩
  · rw [hsp] at h; simp at h
  rcases t4 with _ | ⟨p5, t5⟩
  · rw [hsp] at h; simp at h
  rcases t5 with _ | ⟨p6, t6⟩
  · rw [hsp] at h
    have h2 : (match pyInt p4 with
        | none => none
        | some c =>
          match pyInt p5 with
          | none => none
          | some q => some (⟨p1, p2, p3, c, q⟩ : Shoe)) = some r := h
    rcases h4 : pyInt p4 with _ | c
    · rw [h4] at h2; simp at h2
    rcases h5 : pyInt p5 with _ | q
    · rw [h4, h5] at h2; simp at h2
    rw [h4, h5] at h2
    simp only [Option.some.injEq] at h2
    subst h2
    refine ⟨?_, ?_, ?_, ?_⟩
    · exact splitComma_parts _ p1 (by rw [hsp]; simp)
    · exact splitComma_parts _ p2 (by rw [hsp]; simp)
    · exact splitComma_parts _ p3 (by rw [hsp]; simp)
    · show noLeadSpace p1 = true
      rcases hp1 : p1 with _ | ⟨c0, r0⟩
      · rfl
      · rw [hp1] at hsp
        obtain ⟨rr, hrr⟩ := splitComma_first_head _ c0 r0 _ hsp
        simp [noLeadSpace, strip_head_not_space line c0 rr hrr]
  · rw [hsp] at h; simp at h

/-- The load loop appends exactly the parse of each well-formed line, in
file order, to the accumulator. -/
theorem readLoop_eq (lines : List Str) :
    ∀ acc, readLoop acc lines = acc ++ lines.filterMap parseLine := by
  induction lines with
  | nil => intro acc; simp [readLoop]
  | cons line rest ih =>
    intro acc
    rcases hp : parseLine line with _ | s
    · simp [readLoop, hp, ih]
    · simp [readLoop, hp, ih]

/-- The minimum fold result has a quantity at most every scanned quantity. -/
theorem minFold_le (rest : List Shoe) :
    ∀ s x, x ∈ s :: rest → (minFold s rest).quantity ≤ x.quantity := by
  induction rest with
  | nil =>
    intro s x hx
    rw [List.mem_singleton] at hx
    subst hx
    exact le_refl _
  | cons b bl ih =>
    intro s x hx
    have hstep : minFold s (b :: bl) = minFold (if b.quantity < s.quantity then b else s) bl := rfl
    by_cases hlt : b.quantity < s.quantity
    · rw [hstep, if_pos hlt]
      rcases List.mem_cons.mp hx with rfl | hx2
      · exact le_of_lt (lt_of_le_of_lt (ih b b (List.mem_cons_self b bl)) hlt)
      · exact ih b x hx2
    · rw [hstep, if_neg hlt]
      rcases List.mem_cons.mp hx with rfl | hx2
      · exact ih x x (List.mem_cons_self x bl)
      · rcases List.mem_cons.mp hx2 with rfl | hx3
        · exact le_trans (ih s s (List.mem_cons_self s bl)) (le_of_not_lt hlt)
        · exact ih s x (List.mem_cons_of_mem s hx3)

/-- The first list element whose quantity attains the minimum fold value is
the fold result itself: Python `min` keeps the earliest best on ties. -/
theorem minFold_find? (rest : List Shoe) :
    ∀ s, List.find? (fun y => decide (y.quantity = (minFold s rest).quantity)) (s :: rest) =
      some (minFold s rest) := by
  induction rest with
  | nil => intro s; simp [minFold, List.find?_cons]
  | cons b bl ih =>
    intro s
    have hstep : minFold s (b :: bl) = minFold (if b.quantity < s.quantity then b else s) bl := rfl
    by_cases hlt : b.quantity < s.quantity
    · rw [hstep, if_pos hlt]
      have hm : (minFold b bl).quantity ≤ b.quantity := minFold_le bl b b (List.mem_cons_self b bl)
      have hps : decide (s.quantity = (minFold b bl).quantity) = false := by
        simp only [decide_eq_false_iff_not]
        intro he
        omega
      rw [List.find?_cons]
      simp only [hps]
      exact ih b
    · rw [hstep, if_neg hlt]
      have ihs := ih s
      have hm : (minFold s bl).quantity ≤ s.quantity := minFold_le bl s s (List.mem_cons_self s bl)
      rcases hps : decide (s.quantity = (minFold s bl).quantity) with _ | _
      · have hpb : decide (b.quantity = (minFold s bl).quantity) = false := by
          simp only [decide_eq_false_iff_not]
          simp only [decide_eq_false_iff_not] at hps
          intro he
          have hsb : s.quantity ≤ b.quantity := le_of_not_lt hlt
          omega
        rw [List.find?_cons] at ihs
        rw [hps] at ihs
        rw [List.find?_cons]
        simp only [hps]
        rw [List.find?_cons]
        simp only [hpb]
        exact ihs
      · rw [List.find?_cons] at ihs
        rw [hps] at ihs
        rw [List.find?_cons]
        simp only [hps]
        exact ihs

/-- The maximum fold result has a quantity at least every scanned quantity. -/
theorem maxFold_ge (rest : List Shoe) :
    ∀ s x, x ∈ s :: rest → x.quantity ≤ (maxFold s rest).quantity := by
  induction rest with
  | nil =>
    intro s x hx
    rw [List.mem_singleton] at hx
    subst hx
    exact le_refl _
  | cons b bl ih =>
    intro s x hx
    have hstep : maxFold s (b :: bl) = maxFold (if s.quantity < b.quantity then b else s) bl := rfl
    by_cases hlt : s.quantity < b.quantity
    · rw [hstep, if_pos hlt]
      rcases List.mem_cons.mp hx with rfl | hx2
      · exact le_of_lt (lt_of_lt_of_le hlt (ih b b (List.mem_cons_self b bl)))
      · exact ih b x hx2
    · rw [hstep, if_neg hlt]
      rcases List.mem_cons.mp hx with rfl | hx2
      · exact ih x x (List.mem_cons_self x bl)
      · rcases List.mem_cons.mp hx2 with rfl | hx3
        · exact le_trans (le_of_not_lt hlt) (ih s s (List.mem_cons_self s bl))
        · exact ih s x (List.mem_cons_of_mem s hx3)

/-- The first list element whose quantity attains the maximum fold value is
the fold result itself: Python `max` keeps the earliest best on ties. -/
theorem maxFold_find? (rest : List Shoe) :
    ∀ s, List.find? (fun y => decide (y.quantity = (maxFold s rest).quantity)) (s :: rest) =
      some (maxFold s rest) := by
  induction rest with
  | nil => intro s; simp [maxFold, List.find?_cons]
  | cons b bl ih =>
    intro s
    have hstep : maxFold s (b :: bl) = maxFold (if s.quantity < b.quantity then b else s) bl := rfl
    by_cases hlt : s.quantity < b.quantity
    · rw [hstep, if_pos hlt]
      have hm : b.quantity ≤ (maxFold b bl).quantity := maxFold_ge bl b b (List.mem_cons_self b bl)
      have hps : decide (s.quantity = (maxFold b bl).quantity) = false := by
        simp only [decide_eq_false_iff_not]
        intro he
        omega
      rw [List.find?_cons]
      simp only [hps]
      exact ih b
    · rw [hstep, if_neg hlt]
      have ihs := ih s
      have hm : s.quantity ≤ (maxFold s bl).quantity := maxFold_ge bl s s (List.mem_cons_self s bl)
      rcases hps : decide (s.quantity = (maxFold s bl).quantity) with _ | _
      · have hpb : decide (b.quantity = (maxFold s bl).quantity) = false := by
          simp only [decide_eq_false_iff_not]
          simp only [decide_eq_false_iff_not] at hps
          intro he
          have hsb : b.quantity ≤ s.quantity := le_of_not_lt hlt
          omega
        rw [List.find?_cons] at ihs
        rw [hps] at ihs
        rw [List.find?_cons]
        simp only [hps]
        rw [List.find?_cons]
        simp only [hpb]
        exact ihs
      · rw [List.find?_cons] at ihs
        rw [hps] at ihs
        rw [List.find?_cons]
        simp only [hps]
        exact ihs

/-- A successful linear search splits the list at the first hit: everything
before it fails the predicate. -/
theorem find?_decomp {α : Type} (p : α → Bool) :
    ∀ (l : List α) (a : α), List.find? p l = some a →
      ∃ pre post, l = pre ++ a :: post ∧ (∀ x ∈ pre, p x = false) ∧ p a = true := by
  intro l
  induction l with
  | nil => intro a h; simp at h
  | cons b bl ih =>
    intro a h
    rcases hpb : p b with _ | _
    · rw [List.find?_cons, hpb] at h
      obtain ⟨pre, post, heq, hpre, hpa⟩ := ih a h
      refine ⟨b :: pre, post, by rw [heq, List.cons_append], ?_, hpa⟩
      intro x hx
      rcases List.mem_cons.mp hx with rfl | hx2
      · exact hpb
      · exact hpre x hx2
    · rw [List.find?_cons, hpb] at h
      simp only [Option.some.injEq] at h
      subst h
      exact ⟨[], bl, rfl, by intro x hx; simp at hx, hpb⟩

/-- Bumping the first record with quantity `m` in a list whose prefix avoids
`m` rewrites exactly the marked element. -/
theorem bumpFirstMin_append (m delta : Int) (pre : List Shoe) (t : Shoe) (post : List Shoe)
    (hpre : ∀ x ∈ pre, x.quantity ≠ m) (ht : t.quantity = m) :
    bumpFirstMin m delta (pre ++ t :: post) =
      pre ++ { t with quantity := t.quantity + delta } :: post := by
  induction pre with
  | nil =>
    simp only [List.nil_append, bumpFirstMin, ht, if_pos]
  | cons b bl ih =>
    simp only [List.cons_append, bumpFirstMin, List.append_eq]
    rw [if_neg (hpre b (List.mem_cons_self b bl))]
    rw [ih (fun x hx => hpre x (List.mem_cons_of_mem b hx))]

/-- Core append/reload lemma: when the file is absent or has a header line,
and the stripped string fields are comma-free, appending a record and
reloading yields exactly the parse of the old file plus the new record. -/
theorem capture_spec (file : Option (List Str)) (country code product costS qtyS : Str)
    (hfile : file ≠ some [])
    (hnc1 : noComma (strip country) = true)
    (hnc2 : noComma (strip code) = true)
    (hnc3 : noComma (strip product) = true) :
    (capture_shoes file country code product costS qtyS).2 =
      .ok (fileShoes file ++ [captureShoe country code product costS qtyS]) := by
  have hgood : GoodShoe (captureShoe country code product costS qtyS) := by
    refine ⟨hnc1, hnc2, hnc3, ?_⟩
    show noLeadSpace (strip country) = true
    rcases hs : strip country with _ | ⟨c, r⟩
    · rfl
    · simp [noLeadSpace, strip_head_not_space country c r hs]
  have hparse : parseLine (shoeLine (captureShoe country code product costS qtyS)) =
      some (captureShoe country code product costS qtyS) :=
    parseLine_shoeLine _ hgood
  show read_shoes_data
      (some (writeAppend file (shoeLine (captureShoe country code product costS qtyS)))) [] = _
  rcases file with _ | ⟨_ | ⟨hdr, data⟩⟩
  · show Except.ok (readLoop [] [shoeLine (captureShoe country code product costS qtyS)]) = _
    rw [readLoop_eq]
    simp [hparse, fileShoes]
  · exact absurd rfl hfile
  · show read_shoes_data
        (some ((hdr :: data) ++ [shoeLine (captureShoe country code product costS qtyS)])) [] = _
    rw [List.cons_append]
    show Except.ok (readLoop [] (data ++ [shoeLine (captureShoe country code product costS qtyS)])) = _
    rw [readLoop_eq]
    simp [List.filterMap_append, hparse, fileShoes]

/-- Specification of the search scan: a hit is a member, matches the search
code case-insensitively, and is the first such element; a miss means no
element matches. -/
theorem searchLoop_spec (sc : Str) (l : List Shoe) :
    (∀ r, searchLoop sc l = some r →
      r ∈ l ∧ sc = pyLower r.code ∧
      ∃ pre post, l = pre ++ r :: post ∧ ∀ x ∈ pre, sc ≠ pyLower x.code) ∧
    (searchLoop sc l = none ↔ ∀ x ∈ l, sc ≠ pyLower x.code) := by
  induction l with
  | nil =>
    constructor
    · intro r h; simp [searchLoop] at h
    · simp [searchLoop]
  | cons item rest ih =>
    by_cases heq : sc = pyLower item.code
    · constructor
      · intro r h
        rw [searchLoop, if_pos heq] at h
        simp only [Option.some.injEq] at h
        subst h
        exact ⟨List.mem_cons_self _ _, heq, [], rest, rfl, by intro x hx; simp at hx⟩
      · constructor
        · intro h
          rw [searchLoop, if_pos heq] at h
          simp at h
        · intro h
          exact absurd heq (h item (List.mem_cons_self _ _))
    · constructor
      · intro r h
        rw [searchLoop, if_neg heq] at h
        obtain ⟨hmem, hcode, pre, post, heql, hpre⟩ := ih.1 r h
        refine ⟨List.mem_cons_of_mem _ hmem, hcode, item :: pre, post, by rw [heql, List.cons_append], ?_⟩
        intro x hx
        rcases List.mem_cons.mp hx with rfl | hx2
        · exact heq
        · exact hpre x hx2
      · rw [searchLoop, if_neg heq]
        rw [ih.2]
        constructor
        · intro h x hx
          rcases List.mem_cons.mp hx with rfl | hx2
          · exact heq
          · exact h x hx2
        · intro h x hx
          exact h x (List.mem_cons_of_mem _ hx)

/-- Parsing back the serialized lines of a list of good records recovers
the list. -/
theorem filterMap_parse_shoeLines (l : List Shoe) (h : ∀ s ∈ l, GoodShoe s) :
    (l.map shoeLine).filterMap parseLine = l := by
  induction l with
  | nil => rfl
  | cons s rest ih =>
    rw [List.map_cons, List.filterMap_cons, parseLine_shoeLine s (h s (List.mem_cons_self _ _))]
    rw [ih (fun x hx => h x (List.mem_cons_of_mem _ hx))]

/-- Bumping a quantity preserves the good field shape of every record. -/
theorem bumpFirstMin_good (m delta : Int) (l : List Shoe) (h : ∀ s ∈ l, GoodShoe s) :
    ∀ s ∈ bumpFirstMin m delta l, GoodShoe s := by
  induction l with
  | nil => intro s hs; simp [bumpFirstMin] at hs
  | cons b rest ih =>
    intro s hs
    rw [bumpFirstMin] at hs
    by_cases hb : b.quantity = m
    · rw [if_pos hb] at hs
      rcases List.mem_cons.mp hs with rfl | hs2
      · obtain ⟨h1, h2, h3, h4⟩ := h b (List.mem_cons_self _ _)
        exact ⟨h1, h2, h3, h4⟩
      · exact h s (List.mem_cons_of_mem _ hs2)
    · rw [if_neg hb] at hs
      rcases List.mem_cons.mp hs with rfl | hs2
      · exact h s (List.mem_cons_self _ _)
      · exact ih (fun x hx => h x (List.mem_cons_of_mem _ hx)) s hs2

/-- C8: when `inventory.txt` does not exist, `read_shoes_data` catches the
`FileNotFoundError`, reports it, and returns normally with the collection
still empty — no unhandled exception. -/
theorem c8_missing_storage_not_fatal : read_shoes_data none [] = Except.ok [] := rfl

/-- C9: on a zero-line `inventory.txt`, the `next(f)` header skip in
`read_shoes_data` raises `StopIteration`, which no handler catches (only
`FileNotFoundError` is handled), instead of returning with the collection
empty. -/
theorem c9_empty_file_raises (shoe_list : List Shoe) :
    read_shoes_data (some []) shoe_list = Except.error PyExn.stopIteration := rfl

/-- C10: `read_shoes_data` appends the parsed records to whatever is
already in `shoe_list` without clearing it, so a load into a non-empty
collection keeps the prior records in front, and loading the same file
twice in a row duplicates every record. -/
theorem c10_load_appends (hdr : Str) (data : List Str) (prior : List Shoe) :
    read_shoes_data (some (hdr :: data)) prior =
      Except.ok (prior ++ data.filterMap parseLine) ∧
    read_shoes_data (some (hdr :: data)) (data.filterMap parseLine) =
      Except.ok (data.filterMap parseLine ++ data.filterMap parseLine) := by
  constructor
  · show Except.ok (readLoop prior data) = _
    rw [readLoop_eq]
  · show Except.ok (readLoop (data.filterMap parseLine) data) = _
    rw [readLoop_eq]

/-- C2 counterexample: loading a data line whose cost field is `-5`
succeeds, because `int()` accepts a sign, so the in-memory collection holds
a record with negative cost — refuting the claim that every loaded record
has non-negative cost and quantity. -/
theorem c2_counterexample :
    read_shoes_data (some [headerLine, str "UK,SC1,Boot,-5,3"]) [] =
      Except.ok [⟨str "UK", str "SC1", str "Boot", -5, 3⟩] ∧
    (⟨str "UK", str "SC1", str "Boot", -5, 3⟩ : Shoe).cost < 0 :=
  ⟨rfl, by decide⟩

/-- C2 (amended): every record produced by Append-record has non-negative
integer cost and quantity, because `capture_shoes` validates both inputs
with `isdigit` before converting; Load-produced records have integer
fields but their sign is unconstrained. -/
theorem c2_capture_record_nonneg (country code product costS qtyS : Str)
    (hcost : pyIsDigit (strip costS) = true)
    (hqty : pyIsDigit (strip qtyS) = true) :
    0 ≤ (captureShoe country code product costS qtyS).cost ∧
    0 ≤ (captureShoe country code product costS qtyS).quantity := by
  constructor
  · show (0 : Int) ≤ (pyInt (strip costS)).getD 0
    rw [pyInt_of_digits _ hcost]
    simp
  · show (0 : Int) ≤ (pyInt (strip qtyS)).getD 0
    rw [pyInt_of_digits _ hqty]
    simp

/-- C2 witness: concrete validated inputs produce non-negative fields. -/
theorem c2_witness :
    pyIsDigit (strip (str "10")) = true ∧ pyIsDigit (strip (str "2")) = true ∧
    0 ≤ (captureShoe (str "FR") (str "SC003") (str "Heel") (str "10") (str "2")).cost ∧
    0 ≤ (captureShoe (str "FR") (str "SC003") (str "Heel") (str "10") (str "2")).quantity :=
  ⟨by decide, by decide,
    (c2_capture_record_nonneg (str "FR") (str "SC003") (str "Heel") (str "10") (str "2")
      (by decide) (by decide)).1,
    (c2_capture_record_nonneg (str "FR") (str "SC003") (str "Heel") (str "10") (str "2")
      (by decide) (by decide)).2⟩

/-- C7: `search_shoe` scans the collection linearly, comparing the stripped
search code to each record code case-insensitively: a returned record is a
member matching the search code and is the first match in collection
order, and a `none` result means no record matches.  The scan takes the
collection as a value and cannot modify it. -/
theorem c7_search_first_match (searchRaw : Str) (shoe_list : List Shoe) :
    (∀ r, search_shoe searchRaw shoe_list = some r →
      r ∈ shoe_list ∧ pyLower (strip searchRaw) = pyLower r.code ∧
      ∃ pre post, shoe_list = pre ++ r :: post ∧
        ∀ x ∈ pre, pyLower (strip searchRaw) ≠ pyLower x.code) ∧
    (search_shoe searchRaw shoe_list = none ↔
      ∀ x ∈ shoe_list, pyLower (strip searchRaw) ≠ pyLower x.code) :=
  searchLoop_spec (pyLower (strip searchRaw)) shoe_list

/-- C7 witness: lowercase `sc001` finds the record stored with code
`SC001`, first in order; an unmatched code yields the not-found signal. -/
theorem c7_witness :
    search_shoe (str "sc001") [shoeA, shoeB] = some shoeA ∧
    (shoeA ∈ [shoeA, shoeB] ∧ pyLower (strip (str "sc001")) = pyLower shoeA.code ∧
      ∃ pre post, [shoeA, shoeB] = pre ++ shoeA :: post ∧
        ∀ x ∈ pre, pyLower (strip (str "sc001")) ≠ pyLower x.code) ∧
    search_shoe (str "SC999") [shoeA, shoeB] = none :=
  ⟨by decide,
    (c7_search_first_match (str "sc001") [shoeA, shoeB]).1 shoeA (by decide),
    by decide⟩

/-- C5: for a non-empty collection, min-by-quantity returns a record whose
quantity is at most every record's quantity and max-by-quantity one whose
quantity is at least every record's quantity, and each is the first record
in collection order attaining its extreme (the `List.find?` clauses say the
first record carrying the extreme quantity is the returned record). -/
theorem c5_min_max_by_quantity (l : List Shoe) (m M : Shoe)
    (hm : minByQty l = some m) (hM : maxByQty l = some M) :
    (∀ x ∈ l, m.quantity ≤ x.quantity) ∧
    List.find? (fun y => decide (y.quantity = m.quantity)) l = some m ∧
    (∀ x ∈ l, x.quantity ≤ M.quantity) ∧
    List.find? (fun y => decide (y.quantity = M.quantity)) l = some M := by
  cases l with
  | nil => simp [minByQty] at hm
  | cons s rest =>
    have hm2 : minFold s rest = m := Option.some.inj hm
    have hM2 : maxFold s rest = M := Option.some.inj hM
    subst hm2
    subst hM2
    exact ⟨minFold_le rest s, minFold_find? rest s, maxFold_ge rest s, maxFold_find? rest s⟩

/-- C5 witness: on quantities 3, 1, 3, min returns the unique quantity-1
record and max returns the first of the two tied quantity-3 records. -/
theorem c5_witness :
    minByQty [shoeA, shoeB, shoeC] = some shoeB ∧
    maxByQty [shoeA, shoeB, shoeC] = some shoeA ∧
    ((∀ x ∈ [shoeA, shoeB, shoeC], shoeB.quantity ≤ x.quantity) ∧
     List.find? (fun y => decide (y.quantity = shoeB.quantity)) [shoeA, shoeB, shoeC] =
       some shoeB ∧
     (∀ x ∈ [shoeA, shoeB, shoeC], x.quantity ≤ shoeA.quantity) ∧
     List.find? (fun y => decide (y.quantity = shoeA.quantity)) [shoeA, shoeB, shoeC] =
       some shoeA) :=
  ⟨by decide, by decide,
    c5_min_max_by_quantity [shoeA, shoeB, shoeC] shoeB shoeA (by decide) (by decide)⟩

/-- C3: for a non-empty collection and a non-negative delta, `re_stock`
adds exactly the delta to the quantity of the record selected by
min-by-quantity, keeps its other fields, and leaves every other record
unchanged: the collection splits into an untouched prefix of records with
strictly larger quantity, the bumped target, and an untouched suffix. -/
theorem c3_restock_frame (l : List Shoe) (delta : Int) (m : Shoe)
    (nl : List Shoe) (file : List Str)
    (hdelta : 0 ≤ delta) (hm : minByQty l = some m)
    (h : re_stock l delta = Except.ok (nl, file)) :
    ∃ pre post, l = pre ++ m :: post ∧
      nl = pre ++ { m with quantity := m.quantity + delta } :: post ∧
      ∀ x ∈ pre, m.quantity < x.quantity := by
  cases l with
  | nil => simp [minByQty] at hm
  | cons s rest =>
    have hm2 : minFold s rest = m := Option.some.inj hm
    have h2 : (Except.ok (bumpFirstMin (minFold s rest).quantity delta (s :: rest),
        headerLine :: (bumpFirstMin (minFold s rest).quantity delta (s :: rest)).map shoeLine) :
        Except PyExn (List Shoe × List Str)) = Except.ok (nl, file) := h
    rw [hm2] at h2
    have h3 := Except.ok.inj h2
    rw [Prod.mk.injEq] at h3
    obtain ⟨hnl, _⟩ := h3
    have hfind := minFold_find? rest s
    rw [hm2] at hfind
    obtain ⟨pre, post, heq, hpre, _⟩ := find?_decomp _ _ _ hfind
    have hprene : ∀ x ∈ pre, x.quantity ≠ m.quantity := by
      intro x hx
      simpa using hpre x hx
    refine ⟨pre, post, heq, ?_, ?_⟩
    · rw [← hnl, heq, bumpFirstMin_append m.quantity delta pre m post hprene rfl]
    · intro x hx
      have hmem : x ∈ s :: rest := by
        rw [heq]
        exact List.mem_append.mpr (Or.inl hx)
      have hle := minFold_le rest s x hmem
      rw [hm2] at hle
      exact lt_of_le_of_ne hle (fun he => hprene x hx he.symm)

/-- C3 witness: restocking quantities 3, 1, 3 by 5 bumps only the middle
record, with the prefix record strictly above the minimum. -/
theorem c3_witness :
    (0 : Int) ≤ 5 ∧ minByQty [shoeA, shoeB, shoeC] = some shoeB ∧
    ∃ pre post, [shoeA, shoeB, shoeC] = pre ++ shoeB :: post ∧
      [shoeA, { shoeB with quantity := shoeB.quantity + 5 }, shoeC] =
        pre ++ { shoeB with quantity := shoeB.quantity + 5 } :: post ∧
      ∀ x ∈ pre, shoeB.quantity < x.quantity :=
  ⟨by decide, by decide,
    c3_restock_frame [shoeA, shoeB, shoeC] 5 shoeB
      [shoeA, { shoeB with quantity := shoeB.quantity + 5 }, shoeC]
      (headerLine :: [shoeA, { shoeB with quantity := shoeB.quantity + 5 }, shoeC].map shoeLine)
      (by decide) (by decide) rfl⟩

/-- C4: after `re_stock`, persisted storage is exactly the header line
followed by one serialized line per in-memory record in collection order,
and reloading that storage yields precisely the in-memory collection — no
stale or duplicate lines survive the rewrite. -/
theorem c4_restock_rewrites_storage (l : List Shoe) (delta : Int)
    (nl : List Shoe) (file : List Str)
    (hg : ∀ s ∈ l, GoodShoe s) (h : re_stock l delta = Except.ok (nl, file)) :
    file = headerLine :: nl.map shoeLine ∧
    read_shoes_data (some file) [] = Except.ok nl := by
  cases l with
  | nil => simp [re_stock, minByQty] at h
  | cons s rest =>
    have h2 : (Except.ok (bumpFirstMin (minFold s rest).quantity delta (s :: rest),
        headerLine :: (bumpFirstMin (minFold s rest).quantity delta (s :: rest)).map shoeLine) :
        Except PyExn (List Shoe × List Str)) = Except.ok (nl, file) := h
    have h3 := Except.ok.inj h2
    rw [Prod.mk.injEq] at h3
    obtain ⟨hnl, hfile⟩ := h3
    rw [hnl] at hfile
    have hgood : ∀ x ∈ nl, GoodShoe x := by
      rw [← hnl]
      exact bumpFirstMin_good _ _ _ hg
    refine ⟨hfile.symm, ?_⟩
    rw [← hfile]
    show Except.ok (readLoop [] (nl.map shoeLine)) = _
    rw [readLoop_eq, List.nil_append, filterMap_parse_shoeLines nl hgood]

/-- C4 witness: restocking the singleton collection by 4 rewrites storage
to the header plus the updated line, and reloading recovers the updated
collection. -/
theorem c4_witness :
    (∀ s ∈ [shoeA], GoodShoe s) ∧
    [headerLine, str "UK,SC001,Boot,50,7"] =
      headerLine :: ([({ shoeA with quantity := shoeA.quantity + 4 } : Shoe)].map shoeLine) ∧
    read_shoes_data (some [headerLine, str "UK,SC001,Boot,50,7"]) [] =
      Except.ok [({ shoeA with quantity := shoeA.quantity + 4 } : Shoe)] := by
  have h := c4_restock_rewrites_storage [shoeA] 4
    [{ shoeA with quantity := shoeA.quantity + 4 }]
    [headerLine, str "UK,SC001,Boot,50,7"] (by decide) rfl
  exact ⟨by decide, h.1, h.2⟩

/-- C6: loading a header plus data lines yields exactly the well-formed
lines as records, in file order; a line is rejected precisely when it does
not split into five fields on the delimiter or when one of its last two
fields fails integer conversion, and a well-formed line contributes the
record built from its five fields. -/
theorem c6_load_skips_malformed (hdr : Str) (data : List Str) :
    read_shoes_data (some (hdr :: data)) [] = Except.ok (data.filterMap parseLine) ∧
    (∀ line, (splitComma (strip line)).length ≠ 5 → parseLine line = none) ∧
    (∀ line p1 p2 p3 p4 p5, splitComma (strip line) = [p1, p2, p3, p4, p5] →
      (pyInt p4 = none ∨ pyInt p5 = none) → parseLine line = none) ∧
    (∀ line p1 p2 p3 p4 p5 c q, splitComma (strip line) = [p1, p2, p3, p4, p5] →
      pyInt p4 = some c → pyInt p5 = some q →
      parseLine line = some ⟨p1, p2, p3, c, q⟩) := by
  refine ⟨?_, ?_, ?_, ?_⟩
  · show Except.ok (readLoop [] data) = _
    rw [readLoop_eq, List.nil_append]
  · intro line h5
    unfold parseLine
    rcases hsp : splitComma (strip line) with _ | ⟨p1, t1⟩
    · exact absurd hsp (splitComma_ne_nil _)
    rcases t1 with _ | ⟨p2, t2⟩
    · rfl
    rcases t2 with _ | ⟨p3, t3⟩
    · rfl
    rcases t3 with _ | ⟨p4, t4⟩
    · rfl
    rcases t4 with _ | ⟨p5, t5⟩
    · rfl
    rcases t5 with _ | ⟨p6, t6⟩
    · exact absurd (by rw [hsp]; rfl) h5
    · rfl
  · intro line p1 p2 p3 p4 p5 hsp hor
    unfold parseLine
    rw [hsp]
    show (match pyInt p4 with
        | none => none
        | some c =>
          match pyInt p5 with
          | none => none
          | some q => some (⟨p1, p2, p3, c, q⟩ : Shoe)) = none
    rcases hor with h4 | h5
    · rw [h4]
    · rcases h4 : pyInt p4 with _ | c
      · rfl
      · rw [h5]
  · intro line p1 p2 p3 p4 p5 c q hsp h4 h5
    unfold parseLine
    rw [hsp]
    show (match pyInt p4 with
        | none => none
        | some c2 =>
          match pyInt p5 with
          | none => none
          | some q2 => some (⟨p1, p2, p3, c2, q2⟩ : Shoe)) = some ⟨p1, p2, p3, c, q⟩
    rw [h4, h5]

/-- C6 witness: a four-field line and a non-integer-cost line are skipped
with loading continuing, so exactly the two well-formed lines become
records, in file order. -/
theorem c6_witness :
    read_shoes_data (some [headerLine, str "UK,SC001,Boot,50,3",
        str "bad,line", str "UK,SC002,Shoe,x,10", str "FR,SC003,Heel,10,3"]) [] =
      Except.ok [shoeA, shoeC] ∧
    parseLine (str "bad,line") = none ∧
    parseLine (str "UK,SC002,Shoe,x,10") = none := by
  have h := c6_load_skips_malformed headerLine
    [str "UK,SC001,Boot,50,3", str "bad,line", str "UK,SC002,Shoe,x,10",
      str "FR,SC003,Heel,10,3"]
  refine ⟨h.1.trans (congrArg Except.ok (by decide)), ?_, ?_⟩
  · exact h.2.1 (str "bad,line") (by decide)
  · exact h.2.2.1 (str "UK,SC002,Shoe,x,10") (str "UK") (str "SC002") (str "Shoe")
      (str "x") (str "10") (by decide) (Or.inl (by decide))

/-- C1 counterexample: with an empty prior collection, an unused code, and
digit-validated cost and quantity — all the claim's stated preconditions —
appending a record whose country contains the delimiter (`A,B`) and
reloading yields the empty collection, because the written line splits
into six fields and is skipped; the result is not the prior collection
plus the new record. -/
theorem c1_counterexample :
    (∀ s ∈ fileShoes (some [headerLine]), s.code ≠ strip (str "C1")) ∧
    pyIsDigit (strip (str "1")) = true ∧
    (capture_shoes (some [headerLine]) (str "A,B") (str "C1") (str "P") (str "1") (str "1")).2 =
      Except.ok [] ∧
    fileShoes (some [headerLine]) ++
        [captureShoe (str "A,B") (str "C1") (str "P") (str "1") (str "1")] ≠ [] :=
  ⟨by decide, by decide, rfl, by decide⟩

/-- C1 (amended): provided additionally that the file is absent or starts
with a header line, the prior collection is the parse of the persisted
data, and the stripped string fields contain no delimiter, `capture_shoes`
followed by its reload yields exactly the prior collection plus one new
record with the supplied fields. -/
theorem c1_append_then_reload (file : Option (List Str)) (prior : List Shoe)
    (country code product costS qtyS : Str)
    (hfile : file ≠ some [])
    (hprior : prior = fileShoes file)
    (hcode : ∀ s ∈ prior, s.code ≠ strip code)
    (hcost : pyIsDigit (strip costS) = true)
    (hqty : pyIsDigit (strip qtyS) = true)
    (hnc1 : noComma (strip country) = true)
    (hnc2 : noComma (strip code) = true)
    (hnc3 : noComma (strip product) = true) :
    (capture_shoes file country code product costS qtyS).2 =
      Except.ok (prior ++ [captureShoe country code product costS qtyS]) := by
  rw [hprior]
  exact capture_spec file country code product costS qtyS hfile hnc1 hnc2 hnc3

/-- C1 witness: appending `FR,SC003,Heel,10,3` to a one-record store and
reloading yields the prior record followed by the new one. -/
theorem c1_witness :
    (some [headerLine, str "UK,SC001,Boot,50,3"] : Option (List Str)) ≠ some [] ∧
    [shoeA] = fileShoes (some [headerLine, str "UK,SC001,Boot,50,3"]) ∧
    (∀ s ∈ [shoeA], s.code ≠ strip (str "SC003")) ∧
    pyIsDigit (strip (str "10")) = true ∧ pyIsDigit (strip (str "3")) = true ∧
    (capture_shoes (some [headerLine, str "UK,SC001,Boot,50,3"])
        (str "FR") (str "SC003") (str "Heel") (str "10") (str "3")).2 =
      Except.ok ([shoeA] ++
        [captureShoe (str "FR") (str "SC003") (str "Heel") (str "10") (str "3")]) :=
  ⟨by decide, by decide, by decide, by decide, by decide,
    c1_append_then_reload (some [headerLine, str "UK,SC001,Boot,50,3"]) [shoeA]
      (str "FR") (str "SC003") (str "Heel") (str "10") (str "3")
      (by decide) (by decide) (by decide) (by decide) (by decide)
      (by decide) (by decide) (by decide)⟩
